import Mathlib

/-!
Shallow embedding of the Behr EDS front-end framework:

* `scripts/stores/store.js` — base reactive store (state, listener set,
  debounced persist, cross-tab broadcast channel);
* `scripts/stores/color-cart.js` — saved-colors specialization;
* `scripts/lib/component.js` — component factory (`createComponent`,
  `setState`) and the HTML-escape utility `esc` from `scripts/lib/utils.js`;
* the framework event bus (`EventBus.on` / `EventBus.dispatch`).

JavaScript objects are modelled as ordered association lists (`Obj`),
matching JS key-insertion order and spread-merge semantics.  Side effects
(listener notification, storage writes, broadcast posts, lifecycle hooks)
are made observable as explicit event traces returned next to the new
state, so ordering claims become equations on traces.
-/

set_option autoImplicit false

universe u

/-! ## JavaScript object model -/

/-- A JavaScript object: ordered list of key/value pairs (keys unique in
practice; `get` returns the first binding, as property access does). -/
abbrev Obj (V : Type u) : Type u := List (String × V)

/-- Property access `o[k]`. -/
def Obj.get {V : Type u} (o : Obj V) (k : String) : Option V :=
  (o.find? (fun p => p.1 == k)).map (fun p => p.2)

/-- Assignment `o[k] = v`: overrides in place when the key exists (JS keeps
the original key position), otherwise appends the new key at the end. -/
def Obj.set {V : Type u} (o : Obj V) (k : String) (v : V) : Obj V :=
  if o.any (fun p => p.1 == k) then
    o.map (fun p => if p.1 == k then (k, v) else p)
  else
    o ++ [(k, v)]

/-- JS spread merge `{ ...a, ...b }`: entries of `b` override or extend `a`. -/
def Obj.merge {V : Type u} (a b : Obj V) : Obj V :=
  b.foldl (fun acc p => acc.set p.1 p.2) a

/-! ## Base reactive store (`scripts/stores/store.js`)

A `Store` holds its localStorage `key`, the in-memory `state`, and the
listener set.  Listeners are identified by `Nat` ids; a JS `Set` iterates
in insertion order and ignores duplicate adds, which the id list mirrors.
Observable side effects of each operation are returned as a trace. -/

structure Store (V : Type u) : Type u where
  key : String
  state : Obj V
  listeners : List Nat

/-- Observable store side effects. -/
inductive SEffect (V : Type u) : Type u where
  | notify (lid : Nat) (s : Obj V)
  | schedulePersist
  | storageWrite (key : String) (s : Obj V)
  | post (key : String) (s : Obj V)

def SEffect.isStorageWrite {V : Type u} : SEffect V → Bool
  | .storageWrite _ _ => true
  | _ => false

def SEffect.isPost {V : Type u} : SEffect V → Bool
  | .post _ _ => true
  | _ => false

def SEffect.isSchedulePersist {V : Type u} : SEffect V → Bool
  | .schedulePersist => true
  | _ => false

/-- `notify() { this.listeners.forEach((fn) => fn(this.state)); }` —
every listener is called with the store's current state. -/
def Store.notifyEffects {V : Type u} (st : Store V) : List (SEffect V) :=
  st.listeners.map (fun lid => SEffect.notify lid st.state)

/-- Argument of `Store.update`: an updater function or a partial object. -/
inductive Updater (V : Type u) : Type u where
  | fn (f : Obj V → Obj V)
  | patch (p : Obj V)

/-- `typeof updater === 'function' ? updater(this.state) : { ...this.state, ...updater }` -/
def Updater.apply {V : Type u} : Updater V → Obj V → Obj V
  | .fn f, s => f s
  | .patch p, s => s.merge p

/-- `update(updater)`: replace state, `notify()`, then `persist()`
(the debounced persist is merely scheduled, hence one `schedulePersist`
event after the notifications). -/
def Store.update {V : Type u} (st : Store V) (u : Updater V) : Store V × List (SEffect V) :=
  let st1 : Store V := { st with state := u.apply st.state }
  (st1, st1.notifyEffects ++ [SEffect.schedulePersist])

/-- Body of the debounced `persist` closure: when the timer fires it writes
`localStorage.setItem(this.key, ...)` and posts the state on the channel. -/
def Store.persistBody {V : Type u} (st : Store V) : List (SEffect V) :=
  [SEffect.storageWrite st.key st.state, SEffect.post st.key st.state]

/-- `channel.onmessage = (e) => { this.state = e.data; this.notify(); }` -/
def Store.onmessage {V : Type u} (st : Store V) (payload : Obj V) : Store V × List (SEffect V) :=
  let st1 : Store V := { st with state := payload }
  (st1, st1.notifyEffects)

/-- `subscribe(fn)`: add to the listener set, immediately call the new
listener with the current state.  (The returned unsubscribe closure is
modelled by `Store.unsubscribe`.) -/
def Store.subscribe {V : Type u} (st : Store V) (lid : Nat) : Store V × List (SEffect V) :=
  let ls := if lid ∈ st.listeners then st.listeners else st.listeners ++ [lid]
  ({ st with listeners := ls }, [SEffect.notify lid st.state])

/-- The unsubscribe closure `() => this.listeners.delete(fn)`. -/
def Store.unsubscribe {V : Type u} (st : Store V) (lid : Nat) : Store V :=
  { st with listeners := st.listeners.filter (fun l => l != lid) }

/-! ## Theorems for the base store -/

/-- C1: for every store and every `update` call — updater function or
partial object — the in-memory state is replaced first (function
application resp. shallow merge over the current state), then every
currently registered listener is notified, in registration order, with the
already-replaced state, and the debounced persist is scheduled after all
notifications; key and listener set are untouched. -/
theorem store_update_order {V : Type u} (st : Store V) (u : Updater V) :
    (st.update u).1.state = u.apply st.state ∧
    (st.update u).2 =
      st.listeners.map (fun lid => SEffect.notify lid (u.apply st.state))
        ++ [SEffect.schedulePersist] ∧
    (st.update u).1.listeners = st.listeners ∧
    (st.update u).1.key = st.key := by
  refine ⟨rfl, ?_, rfl, rfl⟩
  simp [Store.update, Store.notifyEffects]

/-- C2: processing an incoming cross-tab broadcast message replaces the
in-memory state with the message payload and notifies all listeners, but
performs no storage write, no outgoing broadcast post, and does not even
schedule the debounced persist. -/
theorem store_onmessage_no_persist {V : Type u} (st : Store V) (payload : Obj V) :
    (st.onmessage payload).1.state = payload ∧
    (st.onmessage payload).2 = st.listeners.map (fun lid => SEffect.notify lid payload) ∧
    (st.onmessage payload).2.countP SEffect.isStorageWrite = 0 ∧
    (st.onmessage payload).2.countP SEffect.isPost = 0 ∧
    (st.onmessage payload).2.countP SEffect.isSchedulePersist = 0 := by
  refine ⟨rfl, ?_, ?_, ?_, ?_⟩ <;>
    simp [Store.onmessage, Store.notifyEffects, List.countP_eq_zero,
      SEffect.isStorageWrite, SEffect.isPost, SEffect.isSchedulePersist]

/-- C6: `subscribe(handler)` adds the handler to the listener set, invokes
it exactly once, immediately and synchronously, with the current (pre-call)
state, leaves the state unchanged, and the returned unsubscribe closure
removes the handler from the set. -/
theorem store_subscribe_immediate {V : Type u} (st : Store V) (lid : Nat) :
    lid ∈ (st.subscribe lid).1.listeners ∧
    (st.subscribe lid).2 = [SEffect.notify lid st.state] ∧
    (st.subscribe lid).1.state = st.state ∧
    lid ∉ (((st.subscribe lid).1).unsubscribe lid).listeners ∧
    (((st.subscribe lid).1).unsubscribe lid).state = st.state := by
  refine ⟨?_, rfl, rfl, ?_, rfl⟩
  · by_cases h : lid ∈ st.listeners <;> simp [Store.subscribe, h]
  · simp [Store.subscribe, Store.unsubscribe]

/-! ## Saved-colors store (`scripts/stores/color-cart.js`)

`ColorCartStore` state is `{ colors: [], maxColors: 20 }`.  A stored color
is the caller-supplied color spread-copied and enriched with `id:
Date.now()` and `savedAt: new Date().toISOString()`; the impure `Date`
reads are passed in as explicit `now` / `ts` arguments. -/

structure Color : Type where
  hex : String
  name : String
  deriving DecidableEq

structure SavedColor : Type where
  hex : String
  name : String
  id : Nat
  savedAt : String
  deriving DecidableEq

structure CartState : Type where
  colors : List SavedColor
  maxColors : Nat
  deriving DecidableEq

/-- Default state passed to `super('behr-saved-colors', ...)`. -/
def defaultCartState : CartState :=
  { colors := [], maxColors := 20 }

/-- `get isFull() { return this.count >= this.state.maxColors; }` -/
def ColorCart.isFull (s : CartState) : Bool :=
  decide (s.colors.length ≥ s.maxColors)

/-- `hasColor(hex) { return this.state.colors.some((c) => c.hex === hex); }` -/
def ColorCart.hasColor (s : CartState) (hex : String) : Bool :=
  s.colors.any (fun c => c.hex == hex)

/-- Structured result of `addColor` (`{ success, reason? }`). -/
structure AddResult : Type where
  success : Bool
  reason : Option String
  deriving DecidableEq

/-- `addColor(color)`: guard on `isFull`, then on `hasColor(color.hex)`,
otherwise append the enriched copy via `update`.  Total — never throws. -/
def ColorCart.addColor (s : CartState) (c : Color) (now : Nat) (ts : String) :
    CartState × AddResult :=
  if ColorCart.isFull s then (s, { success := false, reason := some "full" })
  else if ColorCart.hasColor s c.hex then (s, { success := false, reason := some "duplicate" })
  else
    ({ s with colors := s.colors ++ [{ hex := c.hex, name := c.name, id := now, savedAt := ts }] },
     { success := true, reason := none })

/-- JS `arr.splice(i, 1)`: returns the removed element (if any) and the
remaining array.  For `i ≥ arr.length` JS removes nothing and yields
`undefined` (`none`). -/
def jsSpliceRemoveOne {α : Type u} (l : List α) (i : Nat) : Option α × List α :=
  (l[i]?, l.eraseIdx i)

/-- JS `arr.splice(i, 0, x)`: inserts `x` at index `i`, clamped to the
array length (JS clamps `start` to `arr.length`). -/
def jsSpliceInsert {α : Type u} (l : List α) (i : Nat) (x : α) : List α :=
  l.insertIdx (min i l.length) x

/-- `reorder(fromIndex, toIndex)`: copy, `splice(fromIndex, 1)`, then
`splice(toIndex, 0, moved)`.  When `fromIndex` is out of range JS would
insert the hole `undefined`; that value is not representable here, so the
model keeps the remainder (the claims only concern in-range indices). -/
def ColorCart.reorder (fromIdx toIdx : Nat) (s : CartState) : CartState :=
  match jsSpliceRemoveOne s.colors fromIdx with
  | (some moved, rest) => { s with colors := jsSpliceInsert rest toIdx moved }
  | (none, rest) => { s with colors := rest }

/-! ## Theorems for the saved-colors store -/

/-- C3: `addColor` returns `{success:false, reason:'full'}` and leaves the
state unchanged when the collection already holds `maxColors` items;
returns `{success:false, reason:'duplicate'}` and leaves the state
unchanged when (not full and) some stored color has the same hex; and
otherwise appends the color enriched with the generated id and timestamp
and returns `{success:true}`.  The function is total, so no call throws. -/
theorem addColor_cases (s : CartState) (c : Color) (now : Nat) (ts : String) :
    (s.colors.length ≥ s.maxColors →
      ColorCart.addColor s c now ts = (s, { success := false, reason := some "full" })) ∧
    (s.colors.length < s.maxColors → ColorCart.hasColor s c.hex = true →
      ColorCart.addColor s c now ts = (s, { success := false, reason := some "duplicate" })) ∧
    (s.colors.length < s.maxColors → ColorCart.hasColor s c.hex = false →
      ColorCart.addColor s c now ts =
        ({ s with
            colors := s.colors ++ [{ hex := c.hex, name := c.name, id := now, savedAt := ts }] },
         { success := true, reason := none })) := by
  refine ⟨fun hfull => ?_, fun hlt hdup => ?_, fun hlt hdup => ?_⟩ <;>
    simp [ColorCart.addColor, ColorCart.isFull, Nat.not_le_of_lt, *]

/-- Witness for C3: the three branches at concrete states — a full cart,
a cart holding the same hex, and a cart with room for a fresh hex. -/
theorem addColor_cases_witness :
    (ColorCart.addColor
        { colors := (List.range 20).map (fun n => { hex := toString n, name := "c", id := n, savedAt := "t" }),
          maxColors := 20 }
        { hex := "#FF0000", name := "Red" } 7 "now"
      = ({ colors := (List.range 20).map (fun n => { hex := toString n, name := "c", id := n, savedAt := "t" }),
           maxColors := 20 },
         { success := false, reason := some "full" })) ∧
    (ColorCart.addColor
        { colors := [{ hex := "#FF0000", name := "Red", id := 1, savedAt := "t" }], maxColors := 20 }
        { hex := "#FF0000", name := "Red" } 7 "now"
      = ({ colors := [{ hex := "#FF0000", name := "Red", id := 1, savedAt := "t" }], maxColors := 20 },
         { success := false, reason := some "duplicate" })) ∧
    (ColorCart.addColor
        { colors := [{ hex := "#FF0000", name := "Red", id := 1, savedAt := "t" }], maxColors := 20 }
        { hex := "#00FF00", name := "Green" } 7 "now"
      = ({ colors := [{ hex := "#FF0000", name := "Red", id := 1, savedAt := "t" },
                      { hex := "#00FF00", name := "Green", id := 7, savedAt := "now" }], maxColors := 20 },
         { success := true, reason := none })) :=
  ⟨(addColor_cases _ _ 7 "now").1 (by decide),
   (addColor_cases _ _ 7 "now").2.1 (by decide) (by decide),
   (addColor_cases _ _ 7 "now").2.2 (by decide) (by decide)⟩

/-- C8: for in-range indices, `reorder(fromIndex, toIndex)` removes the
element at `fromIndex` and reinserts it at `toIndex`: the length is
preserved, the element formerly at `fromIndex` now sits at `toIndex`, and
deleting it there recovers exactly the other elements in their original
relative order; in particular `reorder(0, 2)` on `[A,B,C]` yields
`[B,C,A]`. -/
theorem reorder_moves_element (s : CartState) (i j : Nat)
    (hi : i < s.colors.length) (hj : j ≤ s.colors.length - 1) :
    (ColorCart.reorder i j s).colors.length = s.colors.length ∧
    (ColorCart.reorder i j s).colors[j]? = s.colors[i]? ∧
    (ColorCart.reorder i j s).colors.eraseIdx j = s.colors.eraseIdx i ∧
    (∀ A B C : SavedColor,
      (ColorCart.reorder 0 2 { colors := [A, B, C], maxColors := 20 }).colors = [B, C, A]) := by
  have hget : s.colors[i]? = some s.colors[i] := List.getElem?_eq_getElem hi
  have hrest : (s.colors.eraseIdx i).length = s.colors.length - 1 := by
    rw [List.length_eraseIdx]
    simp [hi]
  have hjle : j ≤ (s.colors.eraseIdx i).length := by omega
  have hmin : min j (s.colors.eraseIdx i).length = j := Nat.min_eq_left hjle
  have hre :
      (ColorCart.reorder i j s).colors =
        (s.colors.eraseIdx i).insertIdx j s.colors[i] := by
    simp [ColorCart.reorder, jsSpliceRemoveOne, jsSpliceInsert, hget, hmin]
  refine ⟨?_, ?_, ?_, fun A B C => rfl⟩
  · rw [hre, List.length_insertIdx _ _ hjle]
    omega
  · rw [hre, hget]
    have hlen : ((s.colors.eraseIdx i).insertIdx j s.colors[i]).length =
        (s.colors.eraseIdx i).length + 1 := List.length_insertIdx _ _ hjle
    have hjlt : j < ((s.colors.eraseIdx i).insertIdx j s.colors[i]).length := by omega
    rw [List.getElem?_eq_getElem hjlt]
    exact congrArg some (List.getElem_insertIdx_self _ _ _ hjle)
  · rw [hre, List.eraseIdx_insertIdx]

/-- Witness for C8: a concrete 3-item cart, `reorder(0, 2)`. -/
theorem reorder_moves_element_witness :
    (ColorCart.reorder 0 2
        { colors := [{ hex := "#A", name := "A", id := 1, savedAt := "t" },
                     { hex := "#B", name := "B", id := 2, savedAt := "t" },
                     { hex := "#C", name := "C", id := 3, savedAt := "t" }],
          maxColors := 20 }).colors.length = 3 ∧
    (ColorCart.reorder 0 2
        { colors := [{ hex := "#A", name := "A", id := 1, savedAt := "t" },
                     { hex := "#B", name := "B", id := 2, savedAt := "t" },
                     { hex := "#C", name := "C", id := 3, savedAt := "t" }],
          maxColors := 20 }).colors[2]? = some { hex := "#A", name := "A", id := 1, savedAt := "t" } := by
  have h := reorder_moves_element
    { colors := [{ hex := "#A", name := "A", id := 1, savedAt := "t" },
                 { hex := "#B", name := "B", id := 2, savedAt := "t" },
                 { hex := "#C", name := "C", id := 3, savedAt := "t" }],
      maxColors := 20 } 0 2 (by decide) (by decide)
  exact ⟨h.1, by rw [h.2.1]; rfl⟩

/-! ## Component factory (`scripts/lib/component.js`)

`defineComponent` fills a name-keyed registry; `createComponent` keys live
instances by DOM element in a `WeakMap`.  Elements are modelled by `Nat`
ids, instances by the value of a fresh-instance counter, and the optional
lifecycle hooks of a definition by presence flags; the hook invocations
performed by `createComponent` are returned as a `LifeEv` trace. -/

structure CompDef : Type where
  hasSetup : Bool
  hasRender : Bool
  hasMounted : Bool
  hasStateHook : Bool
  deriving DecidableEq

structure CompSys : Type where
  registry : List (String × CompDef)
  instances : List (Nat × Nat)
  nextInst : Nat
  deriving DecidableEq

/-- `registry.get(name)`. -/
def lookupDef (r : List (String × CompDef)) (name : String) : Option CompDef :=
  (r.find? (fun p => p.1 == name)).map (fun p => p.2)

/-- `componentInstances.get(element)`. -/
def lookupInstance (m : List (Nat × Nat)) (el : Nat) : Option Nat :=
  (m.find? (fun p => p.1 == el)).map (fun p => p.2)

/-- Lifecycle work performed while mounting: the optional `setup` hook,
the unconditional initial `api.render()` call, the optional `mounted`
hook. -/
inductive LifeEv : Type where
  | setupRun (inst : Nat)
  | renderRun (inst : Nat)
  | mountedRun (inst : Nat)
  deriving DecidableEq

/-- `createComponent(name, element)`: throw when the name is not
registered; return the existing instance untouched when the element
already has one; otherwise allocate a fresh instance, run
`setup` / initial render / `mounted`, and register it. -/
def createComponent (sys : CompSys) (name : String) (el : Nat) :
    Except String (CompSys × Nat × List LifeEv) :=
  match lookupDef sys.registry name with
  | none => Except.error ("Component \"" ++ name ++ "\" not defined")
  | some d =>
    match lookupInstance sys.instances el with
    | some inst => Except.ok (sys, inst, [])
    | none =>
      let inst := sys.nextInst
      Except.ok
        ({ registry := sys.registry,
           instances := sys.instances ++ [(el, inst)],
           nextInst := inst + 1 },
         inst,
         (if d.hasSetup then [LifeEv.setupRun inst] else [])
           ++ [LifeEv.renderRun inst]
           ++ (if d.hasMounted then [LifeEv.mountedRun inst] else []))

/-! ## `setState` (`scripts/lib/component.js`, instance API)

`setState(updates)` computes
`state = { ...state, ...(typeof updates === 'function' ? updates(state) : updates) }`,
then runs `definition.onStateChange(api, state, prev)` when the hook is
present, then `this.render()`.  A `RenderEv.stateHookRun a b` event records
the second and third positional arguments of the hook call (the first is
the component api object). -/

inductive RenderEv (V : Type u) : Type u where
  | stateHookRun (second third : Obj V)
  | renderRun
  deriving DecidableEq

/-- Argument of `setState`: partial object or updater function. -/
inductive CompUpdates (V : Type u) : Type u where
  | fn (f : Obj V → Obj V)
  | patch (p : Obj V)

/-- `typeof updates === 'function' ? updates(state) : updates` — the object
that gets spread over the previous state. -/
def CompUpdates.resolve {V : Type u} : CompUpdates V → Obj V → Obj V
  | .fn f, s => f s
  | .patch p, _ => p

/-- The next component state: shallow merge of the resolved updates over
the previous state (for both argument kinds). -/
def componentNextState {V : Type u} (u : CompUpdates V) (s : Obj V) : Obj V :=
  s.merge (u.resolve s)

/-- `setState`: new state plus the trace of hook / render invocations. -/
def setState {V : Type u} (hasStateHook : Bool) (s : Obj V) (u : CompUpdates V) :
    Obj V × List (RenderEv V) :=
  let next := componentNextState u s
  (next,
   (if hasStateHook then [RenderEv.stateHookRun next s] else []) ++ [RenderEv.renderRun])

/-! ## Theorems for the component factory -/

/-- C4: calling `createComponent` a second time on an element that already
has a live instance returns that same instance with no lifecycle work
(no `setup`, no initial render, no `mounted`) and leaves the system
unchanged; and the element-keyed instance map keeps at most one instance
per element. -/
theorem createComponent_idempotent (sys sys1 sys2 : CompSys) (name : String) (el : Nat)
    (inst inst1 : Nat) (evs evs1 : List LifeEv)
    (h1 : createComponent sys name el = Except.ok (sys1, inst, evs))
    (h2 : createComponent sys1 name el = Except.ok (sys2, inst1, evs1))
    (hnd : (sys.instances.map Prod.fst).Nodup) :
    inst1 = inst ∧ evs1 = [] ∧ sys2 = sys1 ∧ (sys1.instances.map Prod.fst).Nodup := by
  unfold createComponent at h1 h2
  cases hdef : lookupDef sys.registry name with
  | none => rw [hdef] at h1; exact absurd h1 (by simp)
  | some d =>
    rw [hdef] at h1
    cases hinst : lookupInstance sys.instances el with
    | some i0 =>
      rw [hinst] at h1
      obtain ⟨hs, hi, he⟩ : sys1 = sys ∧ inst = i0 ∧ evs = [] := by
        have := h1
        simp only [Except.ok.injEq, Prod.mk.injEq] at this
        exact ⟨this.1.symm, this.2.1.symm, this.2.2.symm⟩
      subst hs hi he
      rw [hdef, hinst] at h2
      simp only [Except.ok.injEq, Prod.mk.injEq] at h2
      exact ⟨h2.2.1.symm, h2.2.2.symm, h2.1.symm, hnd⟩
    | none =>
      rw [hinst] at h1
      simp only [Except.ok.injEq, Prod.mk.injEq] at h1
      obtain ⟨hs, hi, he⟩ := h1
      have hfind : sys.instances.find? (fun p => p.1 == el) = none := by
        have := hinst
        unfold lookupInstance at this
        exact Option.map_eq_none'.mp this
      have hnotmem : el ∉ sys.instances.map Prod.fst := by
        intro hmem
        obtain ⟨p, hp, hpe⟩ := List.mem_map.mp hmem
        have := List.find?_eq_none.mp hfind p hp
        simp [hpe] at this
      have hfind1 : sys1.instances.find? (fun p => p.1 == el) = some (el, sys.nextInst) := by
        rw [← hs]
        simp [List.find?_append, hfind]
      have hdef1 : lookupDef sys1.registry name = some d := by
        rw [← hs]; exact hdef
      rw [hdef1] at h2
      have hli : lookupInstance sys1.instances el = some sys.nextInst := by
        unfold lookupInstance
        rw [hfind1]
        rfl
      rw [hli] at h2
      simp only [Except.ok.injEq, Prod.mk.injEq] at h2
      refine ⟨h2.2.1.symm.trans hi, h2.2.2.symm, h2.1.symm, ?_⟩
      rw [← hs]
      simp only [List.map_append, List.map_cons, List.map_nil]
      exact List.nodup_append.mpr ⟨hnd, List.nodup_singleton _, by simpa using hnotmem⟩

/-- Definition used by the C4 witness: a component with all hooks. -/
def demoDef : CompDef :=
  { hasSetup := true, hasRender := true, hasMounted := true, hasStateHook := false }

/-- Fresh system with one registered component and no instances. -/
def demoSys0 : CompSys :=
  { registry := [("cart-badge", demoDef)], instances := [], nextInst := 0 }

/-- `demoSys0` after mounting element `5`. -/
def demoSys1 : CompSys :=
  { registry := [("cart-badge", demoDef)], instances := [(5, 0)], nextInst := 1 }

/-- Witness for C4: mount element `5` twice in the demo system. -/
theorem createComponent_idempotent_witness :
    (0 : Nat) = 0 ∧ ([] : List LifeEv) = [] ∧ demoSys1 = demoSys1 ∧
      (demoSys1.instances.map Prod.fst).Nodup :=
  createComponent_idempotent demoSys0 demoSys1 demoSys1 "cart-badge" 5 0 0
    [LifeEv.setupRun 0, LifeEv.renderRun 0, LifeEv.mountedRun 0] [] rfl rfl (by decide)

/-- C5 counterexample: with previous state `{count: 0}` and partial
`{count: 1}`, the hook call is `onStateChange(api, {count: 1}, {count: 0})`
— the new state arrives *before* the previous state, so the trace is not
`[stateHookRun prev next, render]` as the claim (previous first, new
second) would require. -/
theorem setState_hook_order_counterexample :
    ¬ ((setState true [("count", (0 : Nat))] (CompUpdates.patch [("count", 1)])).2 =
        [RenderEv.stateHookRun [("count", 0)] [("count", 1)], RenderEv.renderRun]) := by
  decide

/-- C5 (amended): for every component whose definition provides an
`onStateChange` hook, `setState` invokes the hook with the *new* state as
its second argument and the *previous* state as its third (the first being
the component api), and then re-renders; the returned state is the
shallow-merge result. -/
theorem setState_hook_receives_next_then_prev {V : Type u} (s : Obj V) (u : CompUpdates V) :
    (setState true s u).2 =
      [RenderEv.stateHookRun (componentNextState u s) s, RenderEv.renderRun] ∧
    (setState true s u).1 = componentNextState u s := by
  exact ⟨rfl, rfl⟩

/-- `o[k] = v` never drops an existing key. -/
theorem Obj.get_set_isSome {V : Type u} (o : Obj V) (k k1 : String) (v : V)
    (h : (o.get k).isSome) : ((o.set k1 v).get k).isSome := by
  unfold Obj.get at h ⊢
  rw [Option.isSome_map'] at h ⊢
  rw [List.find?_isSome] at h ⊢
  obtain ⟨p, hp, hpk⟩ := h
  unfold Obj.set
  by_cases hany : o.any (fun q => q.1 == k1)
  · simp only [hany, if_true]
    refine ⟨if p.1 == k1 then (k1, v) else p, List.mem_map.mpr ⟨p, hp, rfl⟩, ?_⟩
    by_cases he : p.1 == k1
    · simp only [he, if_true]
      have hk1 : p.1 = k1 := by simpa using he
      simpa [← hk1] using hpk
    · simp only [he]
      simpa using hpk
  · simp only [hany, if_false]
    exact ⟨p, List.mem_append_left _ hp, hpk⟩

/-- `{ ...a, ...b }` never drops a key of `a`. -/
theorem Obj.get_merge_isSome {V : Type u} (a b : Obj V) (k : String)
    (h : (a.get k).isSome) : ((a.merge b).get k).isSome := by
  induction b generalizing a with
  | nil => exact h
  | cons p t ih =>
    have hstep : Obj.merge a (p :: t) = Obj.merge (a.set p.1 p.2) t := by
      simp [Obj.merge]
    rw [hstep]
    exact ih _ (Obj.get_set_isSome a k p.1 p.2 h)

/-- C9: whatever argument `setState` receives — partial object or updater
function, hook present or not — the next state is the shallow merge of the
resolved object over the previous state, so every top-level key of the
previous state is still present afterwards; by contrast the base store's
`update` applies a function updater wholesale (`Updater.fn f` yields
exactly `f s`), with no merge. -/
theorem setState_preserves_keys {V : Type u} (hk : Bool) (s : Obj V) (u : CompUpdates V)
    (k : String) (h : (s.get k).isSome) :
    (((setState hk s u).1).get k).isSome ∧
    (∀ f : Obj V → Obj V, ∀ s2 : Obj V, (Updater.fn f).apply s2 = f s2) := by
  refine ⟨?_, fun f s2 => rfl⟩
  exact Obj.get_merge_isSome s (u.resolve s) k h

/-- Witness for C9: an updater function that returns an object omitting
the key `"a"`; the key survives the merge anyway. -/
theorem setState_preserves_keys_witness :
    ((Obj.get [("a", (1 : Nat))] "a").isSome ∧
      (Obj.get ((setState true [("a", (1 : Nat))] (CompUpdates.fn (fun _ => []))).1) "a").isSome) :=
  ⟨by decide,
   (setState_preserves_keys true [("a", (1 : Nat))] (CompUpdates.fn (fun _ => [])) "a"
      (by decide)).1⟩

/-! ## HTML escape (`scripts/lib/utils.js`, `esc`)

`esc` maps `null`/`undefined` (modelled as `none`) to the empty string and
otherwise chains five global single-character `String.replace` calls, `&`
first.  Strings are worked on as `List Char`; the single-quote character
is written `Char.ofNat 39`. -/

/-- JS `s.replace(/c/g, rep)` for a single-character pattern: every
occurrence of `c` becomes `rep`, other characters are kept. -/
def replaceAll (c : Char) (rep : List Char) (s : List Char) : List Char :=
  s.flatMap (fun ch => if ch = c then rep else [ch])

/-- The five chained replacements of `esc`, in source order. -/
def escList (s : List Char) : List Char :=
  replaceAll (Char.ofNat 39) "&#39;".toList
    (replaceAll '"' "&quot;".toList
      (replaceAll '>' "&gt;".toList
        (replaceAll '<' "&lt;".toList
          (replaceAll '&' "&amp;".toList s))))

/-- `esc = (str) => { if (str == null) return ''; return String(str).replace(...)... }` -/
def esc : Option String → String
  | none => ""
  | some s => String.mk (escList s.data)

/-- Character-wise description of the escape: each of the five reserved
characters maps to its entity, every other character to itself. -/
def escCharSpec (c : Char) : List Char :=
  if c = '&' then "&amp;".toList
  else if c = '<' then "&lt;".toList
  else if c = '>' then "&gt;".toList
  else if c = '"' then "&quot;".toList
  else if c = Char.ofNat 39 then "&#39;".toList
  else [c]

theorem escList_append (x y : List Char) : escList (x ++ y) = escList x ++ escList y := by
  simp [escList, replaceAll]

theorem escList_single (c : Char) : escList [c] = escCharSpec c := by
  by_cases h1 : c = '&'
  · subst h1; decide
  by_cases h2 : c = '<'
  · subst h2; decide
  by_cases h3 : c = '>'
  · subst h3; decide
  by_cases h4 : c = '"'
  · subst h4; decide
  by_cases h5 : c = Char.ofNat 39
  · subst h5; decide
  simp [escList, replaceAll, escCharSpec, h1, h2, h3, h4, h5]

theorem escList_eq_flatMap (s : List Char) : escList s = s.flatMap escCharSpec := by
  induction s with
  | nil => rfl
  | cons c t ih =>
    have hsplit : c :: t = [c] ++ t := rfl
    rw [hsplit, escList_append, ih, escList_single]
    simp

/-- C7: `esc` returns `""` on `null`/`undefined`; on a string it replaces
every occurrence of each of the five reserved characters by its entity,
character by character (so the output is exactly the concatenation of
`escCharSpec` over the input) — and because `&` is replaced first, a
pre-escaped entity is double-escaped, e.g. `&amp;` becomes `&amp;amp;`;
the five single-character inputs give the exact expected entities. -/
theorem esc_spec :
    esc none = "" ∧
    (∀ s : String, esc (some s) = String.mk (s.data.flatMap escCharSpec)) ∧
    esc (some "&amp;") = "&amp;amp;" ∧
    esc (some "&") = "&amp;" ∧
    esc (some "<") = "&lt;" ∧
    esc (some ">") = "&gt;" ∧
    esc (some "\"") = "&quot;" ∧
    esc (some (String.mk [Char.ofNat 39])) = "&#39;" := by
  refine ⟨rfl, fun s => congrArg String.mk (escList_eq_flatMap s.data), ?_, ?_, ?_, ?_, ?_, ?_⟩ <;>
    decide

/-! ## Event bus (`scripts/lib/events.js`, `EventBus`)

`on(event, selector, handler)` stores handlers under the string key
`` `${event}::${selector}` ``; `dispatch` recovers the pair with
`const [eventType, selector] = key.split('::')` — i.e. it keeps only the
first two fragments of the full split.  `jsSplit` models JS
`String.prototype.split` with a non-empty separator (keys always contain
`::`): the string is cut at each leftmost non-overlapping occurrence. -/

def jsSplit (sep : List Char) : List Char → List (List Char)
  | [] => [[]]
  | c :: rest =>
    if sep ≠ [] ∧ sep.isPrefixOf (c :: rest) then
      [] :: jsSplit sep (rest.drop (sep.length - 1))
    else
      match jsSplit sep rest with
      | [] => [[c]]
      | part :: t => (c :: part) :: t
termination_by s => s.length
decreasing_by
  · simp only [List.length_cons, List.length_drop]
    omega
  · simp only [List.length_cons]
    omega

/-- The separator `'::'` used for handler-map keys. -/
def sepKey : List Char := [':', ':']

/-- `` `${event}::${selector}` `` (`EventBus.on`). -/
def mkKey (event selector : String) : String := event ++ "::" ++ selector

/-- `key.split('::')` as a list of strings. -/
def keyParts (key : String) : List String :=
  (jsSplit sepKey key.data).map (fun l => String.mk l)

/-- `const [eventType, ...] = key.split('::')` (first fragment). -/
def dispatchEventType (key : String) : String := (keyParts key).getD 0 ""

/-- `const [..., selector] = key.split('::')` (second fragment; keys built
by `mkKey` always have at least two). -/
def dispatchSelector (key : String) : String := (keyParts key).getD 1 ""

theorem jsSplit_ne_nil (sep s : List Char) : jsSplit sep s ≠ [] := by
  match s with
  | [] => simp [jsSplit]
  | c :: rest =>
    rw [jsSplit]
    split
    · simp
    · split <;> simp

theorem jsSplit_append (sep a b : List Char) (ch : Char) (hsep : sep.head? = some ch)
    (ha : ch ∉ a) : jsSplit sep (a ++ sep ++ b) = a :: jsSplit sep b := by
  obtain ⟨sep1, rfl⟩ : ∃ t, sep = ch :: t := by
    cases sep with
    | nil => exact absurd hsep (by simp)
    | cons x t =>
      have hx : x = ch := by simpa using hsep
      exact ⟨t, by rw [hx]⟩
  clear hsep
  induction a with
  | nil =>
    have hpre : (ch :: sep1).isPrefixOf (ch :: (sep1 ++ b)) :=
      List.isPrefixOf_iff_prefix.mpr (by
        rw [← List.cons_append]
        exact List.prefix_append _ _)
    simp only [List.nil_append, List.cons_append]
    rw [jsSplit, if_pos ⟨List.cons_ne_nil ch sep1, hpre⟩]
    simp only [List.length_cons, Nat.add_sub_cancel]
    rw [List.drop_left]
  | cons c a1 ih =>
    have hc : c ≠ ch := fun h => ha (h ▸ List.mem_cons_self c a1)
    have ha1 : ch ∉ a1 := fun h => ha (List.mem_cons_of_mem c h)
    simp only [List.cons_append]
    rw [jsSplit, if_neg ?hneg]
    case hneg =>
      rintro ⟨-, hpre⟩
      have hp := List.isPrefixOf_iff_prefix.mp hpre
      rw [List.cons_prefix_cons] at hp
      exact hc (hp.1.symm)
    rw [ih ha1]

/-- C10: for a handler registered with `on(event, selector)` where the
selector itself contains `"::"` (say `selector = a ++ "::" ++ rest` with
`a` colon-free, e.g. a pseudo-element selector), `dispatch` splits the
stored `event::selector` key on `"::"` and keeps only the part of the
selector before its first `"::"` — matching then uses that truncated
selector, which differs from the selector as registered. -/
theorem dispatch_truncates_selector (event a b : String)
    (he : ':' ∉ event.data) (ha : ':' ∉ a.data) :
    dispatchEventType (mkKey event (a ++ "::" ++ b)) = event ∧
    dispatchSelector (mkKey event (a ++ "::" ++ b)) = a ∧
    a ≠ a ++ "::" ++ b := by
  have hmkdata : ∀ s : String, String.mk s.data = s := fun s => by cases s; rfl
  have hdata : (mkKey event (a ++ "::" ++ b)).data =
      event.data ++ sepKey ++ (a.data ++ sepKey ++ b.data) := by
    simp [mkKey, sepKey]
  have hsplit : jsSplit sepKey (mkKey event (a ++ "::" ++ b)).data =
      event.data :: a.data :: jsSplit sepKey b.data := by
    rw [hdata, jsSplit_append sepKey event.data _ ':' rfl he,
      jsSplit_append sepKey a.data b.data ':' rfl ha]
  refine ⟨?_, ?_, ?_⟩
  · simp [dispatchEventType, keyParts, hsplit, hmkdata]
  · simp [dispatchSelector, keyParts, hsplit, hmkdata]
  · intro h
    have hlen := congrArg String.length h
    simp only [String.length_append] at hlen
    have : ("::" : String).length = 2 := rfl
    omega

/-- Witness for C10: `on('click', 'li::before', h)` is dispatched against
the truncated selector `'li'`. -/
theorem dispatch_truncates_selector_witness :
    dispatchEventType (mkKey "click" ("li" ++ "::" ++ "before")) = "click" ∧
    dispatchSelector (mkKey "click" ("li" ++ "::" ++ "before")) = "li" ∧
    ("li" : String) ≠ "li" ++ "::" ++ "before" :=
  dispatch_truncates_selector "click" "li" "before" (by decide) (by decide)
